import Mathlib

/-!
Shallow embedding of the `aiombus` M-Bus decoder (Python) in Lean 4.

Byte sequences are modelled as `List ℕ`; a Python exception outcome is an
`Except PyErr α` value.  Each definition mirrors one Python function or
class of the repository; deviations forced by the embedding (e.g. Python's
arbitrary-precision `~` complement restricted to validated bytes) are noted
in the doc comments.
-/

deriving instance DecidableEq for Except

namespace Aiombus

/-- Exception classes that the modelled code can raise.

`mbusError` is `MBusError` (the base class in `aiombus/exceptions.py`),
`mbusDecodeError` is `MBusDecodeError`, `mbusValidationError` is
`MBusValidationError`; `valueError` and `indexError` are Python's built-in
`ValueError` and `IndexError`, which escape undeclared from some decoders. -/
inductive PyErr where
  | mbusError
  | mbusDecodeError
  | mbusValidationError
  | valueError
  | indexError
deriving DecidableEq, Repr

/-- Number of bits in a byte: `BYTE` of the `aiombus.constants` module
(the module itself is absent from the sources; the value 8 is fixed by the
glossary of `aiombus/types.py`, "a byte = 8 bits"). -/
def BYTE : ℕ := 8

/-- Number of bits in a nibble: `NIBBLE` of the `aiombus.constants` module
(the module itself is absent from the sources; the value 4 is fixed by the
glossary of `aiombus/types.py`, "a nibble = 4 bits"). -/
def NIBBLE : ℕ := 4

/-- The conversion `bytes(ibytes)` performed by the Python decoders:
it succeeds exactly when every element lies in `[0, 255]` and raises
`ValueError` otherwise (inputs are natural numbers, so only the upper
bound matters). -/
def pyBytes (ibytes : List ℕ) : Except PyErr (List ℕ) :=
  if ibytes.all (fun b => b < 256) then .ok ibytes else .error .valueError

/-- Embedding of `aiombus.validators.validate_byte`: `bytes([nbr])` raises
`ValueError` for an out-of-range integer, which the validator converts
into `MBusValidationError`. -/
def validate_byte (nbr : ℕ) : Except PyErr ℕ :=
  if nbr < 256 then .ok nbr else .error .mbusValidationError

/-- Little-endian unsigned value of a byte list (first byte least
significant).  This is the claim-side notion used to specify the integer
decoders; it is not itself part of the source. -/
def littleEndianValue : List ℕ → ℕ
  | [] => 0
  | b :: rest => b + 256 * littleEndianValue rest

/-- One step of the accumulation loop of `parse_binary_integer`:
`value = (value << BYTE) + byte` where `byte` has already been
complemented when the sign bit is set. -/
def binAccStep (neg : Bool) (value : ℤ) (byte : ℕ) : ℤ :=
  value * 2 ^ BYTE + (if neg then ((byte ^^^ 255 : ℕ) : ℤ) else (byte : ℤ))

/-- Embedding of `aiombus.types.parse_binary_integer` (Type B).

The source reverses the input (`bytes(reversed(ibytes))`, raising
`ValueError` on non-byte elements), raises `MBusError` on an empty
sequence, takes the sign from bit 7 of the first reversed byte (the last
input byte), then folds `value = (value << 8) + b` over the reversed
sequence, complementing each byte with `b ^ 0xFF` when negative, and
finally returns `-value - 1` in the negative case. -/
def parse_binary_integer (ibytes : List ℕ) : Except PyErr ℤ :=
  match pyBytes ibytes with
  | .error e => .error e
  | .ok bs0 =>
    match bs0.reverse with
    | [] => .error .mbusError
    | b0 :: rest =>
      let neg : Bool := b0 &&& 0x80 ≠ 0
      let value : ℤ := (b0 :: rest).foldl (binAccStep neg) 0
      .ok (if neg then -value - 1 else value)

/-- Embedding of `aiombus.types.parse_unsigned_integer` (Type C):
`bytes(ibytes)` (raising `ValueError` on non-byte elements), `MBusError`
on an empty sequence, then `int.from_bytes(_bytes, byteorder=BIG_ENDIAN)`.
`BIG_ENDIAN` comes from the absent `aiombus.constants` module; its value
is `"big"` as fixed by its name, by the docstring of the function ("The
bytes are parsed along the Big endian order") and by the repository's
tests, so the fold makes the first byte the most significant. -/
def parse_unsigned_integer (ibytes : List ℕ) : Except PyErr ℕ :=
  match pyBytes ibytes with
  | .error e => .error e
  | .ok bs =>
    if bs = [] then .error .mbusError
    else .ok (bs.foldl (fun acc b => acc * 2 ^ BYTE + b) 0)

/-- Leap-year rule of Python's proleptic Gregorian calendar
(`datetime` module): divisible by 4 and (not by 100 or by 400). -/
def isLeapYear (y : ℕ) : Bool :=
  y % 4 = 0 && (y % 100 ≠ 0 || y % 400 = 0)

/-- Days in a month per Python's `datetime` module. -/
def daysInMonth (y m : ℕ) : ℕ :=
  if m = 2 then (if isLeapYear y then 29 else 28)
  else if m = 4 || m = 6 || m = 9 || m = 11 then 30
  else 31

/-- Validity of `datetime.date(year, month, day)` components: Python's
constructor accepts `MINYEAR = 1 ≤ year ≤ MAXYEAR = 9999`,
`1 ≤ month ≤ 12` and `1 ≤ day ≤ days in that month`. -/
def dateValid (y m d : ℕ) : Bool :=
  1 ≤ y && y ≤ 9999 && 1 ≤ m && m ≤ 12 && 1 ≤ d && d ≤ daysInMonth y m

/-- Validity of `datetime.time(hour, minute, second)` components
(inputs are natural numbers, so only upper bounds matter). -/
def timeValid (h mi s : ℕ) : Bool :=
  h ≤ 23 && mi ≤ 59 && s ≤ 59

/-- Result of Python's `datetime.date`. -/
structure PyDate where
  year : ℕ
  month : ℕ
  day : ℕ
deriving DecidableEq, Repr

/-- Result of Python's `datetime.time`. -/
structure PyTime where
  hour : ℕ
  minute : ℕ
  second : ℕ
deriving DecidableEq, Repr

/-- Result of Python's `datetime.datetime`. -/
structure PyDateTime where
  year : ℕ
  month : ℕ
  day : ℕ
  hour : ℕ
  minute : ℕ
  second : ℕ
deriving DecidableEq, Repr

/-- Python's `datetime.date(year=y, month=m, day=d)` constructor:
raises `ValueError` on an invalid calendar date. -/
def pyDate (y m d : ℕ) : Except PyErr PyDate :=
  if dateValid y m d then .ok ⟨y, m, d⟩ else .error .valueError

/-- Python's `datetime.time(hour=h, minute=mi, second=s)` constructor:
raises `ValueError` on invalid components. -/
def pyTime (h mi s : ℕ) : Except PyErr PyTime :=
  if timeValid h mi s then .ok ⟨h, mi, s⟩ else .error .valueError

/-- Python's `datetime.datetime(...)` constructor: raises `ValueError`
on invalid date or time components. -/
def pyDateTime (y m d h mi s : ℕ) : Except PyErr PyDateTime :=
  if dateValid y m d && timeValid h mi s then .ok ⟨y, m, d, h, mi, s⟩
  else .error .valueError

/-- Embedding of `aiombus.types.get_year`: masks the year bits out of the
least- and most-significant parts, concatenates them, and applies the
century rule with rollover constant 81. -/
def get_year (lsp msp : ℕ) : ℕ :=
  let year_lsp := lsp &&& 0xE0
  let year_msp := msp &&& 0xF0
  let year := (year_msp ||| (year_lsp >>> NIBBLE)) >>> 1
  if year < 81 then 2000 + year else 1900 + year

/-- Embedding of `aiombus.types.get_month`. -/
def get_month (byte : ℕ) : ℕ := byte &&& 0xF

/-- Embedding of `aiombus.types.get_day`. -/
def get_day (byte : ℕ) : ℕ := byte &&& 0x1F

/-- Embedding of `aiombus.types.get_hour`. -/
def get_hour (byte : ℕ) : ℕ := byte &&& 0x1F

/-- Embedding of `aiombus.types.get_minute`. -/
def get_minute (byte : ℕ) : ℕ := byte &&& 0x3F

/-- Embedding of `aiombus.types.get_second`. -/
def get_second (byte : ℕ) : ℕ := byte &&& 0x3F

/-- Embedding of `aiombus.types.get_date`: `bytes(ibytes)` (raising
`ValueError` on non-byte elements), reads `frame[0]` and `frame[1]`
(raising `IndexError` when too short), and builds a Python `date` from
the extracted year, month and day. -/
def get_date (ibytes : List ℕ) : Except PyErr PyDate :=
  match pyBytes ibytes with
  | .error e => .error e
  | .ok frame =>
    match frame with
    | dt0 :: dt1 :: _ => pyDate (get_year dt0 dt1) (get_month dt1) (get_day dt0)
    | _ => .error .indexError

/-- Seconds byte selected by `aiombus.types.get_time`: 0 by default,
`frame[2]` when the frame has exactly 3 bytes, `frame[4]` when it has
exactly 5. -/
def timeSecByte (frame : List ℕ) : ℕ :=
  if frame.length = 3 then frame.getD 2 0
  else if frame.length = 5 then frame.getD 4 0
  else 0

/-- Embedding of `aiombus.types.get_time`: `bytes(ibytes)`, reads
`frame[0]` and `frame[1]` (raising `IndexError` when too short), selects
the seconds byte by frame length, and builds a Python `time`. -/
def get_time (ibytes : List ℕ) : Except PyErr PyTime :=
  match pyBytes ibytes with
  | .error e => .error e
  | .ok frame =>
    match frame with
    | dt0 :: dt1 :: _ =>
      pyTime (get_hour dt1) (get_minute dt0) (get_second (timeSecByte frame))
    | _ => .error .indexError

/-- Embedding of `aiombus.types.get_datetime`: `bytes(ibytes)`, reads
`frame[0] .. frame[3]` (raising `IndexError` when too short), takes
`frame[4]` as the seconds byte only for a 5-byte frame (0 otherwise), and
builds a Python `datetime`. -/
def get_datetime (ibytes : List ℕ) : Except PyErr PyDateTime :=
  match pyBytes ibytes with
  | .error e => .error e
  | .ok frame =>
    match frame with
    | dt0 :: dt1 :: dt2 :: dt3 :: _ =>
      let dt4 := if frame.length = 5 then frame.getD 4 0 else 0
      pyDateTime (get_year dt2 dt3) (get_month dt3) (get_day dt2)
        (get_hour dt1) (get_minute dt0) (get_second dt4)
    | _ => .error .indexError

/-- Sub-fields stored by `DataInformationField.__init__`
(`aiombus/telegrams/fields/data_info.py`). -/
structure DataInformationField where
  byte : ℕ
  data : ℕ
  function : ℕ
  storage_number_lsb : ℕ
  extension : ℕ
deriving DecidableEq, Repr

/-- Sub-field extraction of `DataInformationField.__init__`: masks
`data 0x0F`, `function 0x30 >> 4`, `sn-lsb 0x40` and `extension 0x80`
(the last two as 0/1 flags via `int(... != 0)`). -/
def DataInformationField.ofByte (byte : ℕ) : DataInformationField :=
  { byte := byte
    data := byte &&& 0x0F
    function := (byte &&& 0x30) >>> 4
    storage_number_lsb := if byte &&& 0x40 ≠ 0 then 1 else 0
    extension := if byte &&& 0x80 ≠ 0 then 1 else 0 }

/-- Constructor `DataInformationField(byte)`: the `TelegramField` base
class validates the byte (`MBusValidationError` outside `[0, 255]`), then
the sub-fields are extracted. -/
def mkDIF (byte : ℕ) : Except PyErr DataInformationField := do
  let b ← validate_byte byte
  .ok (DataInformationField.ofByte b)

/-- Sub-fields stored by `DataInformationFieldExtension.__init__`
(`aiombus/telegrams/fields/data_info.py`). -/
structure DataInformationFieldExtension where
  byte : ℕ
  storage_number : ℕ
  tariff : ℕ
  device_unit : ℕ
  extension : ℕ
deriving DecidableEq, Repr

/-- Sub-field extraction of `DataInformationFieldExtension.__init__`:
masks `storage 0x0F`, `tariff 0x30 >> 4`, `device 0x40` and
`extension 0x80` (the last two as 0/1 flags). -/
def DataInformationFieldExtension.ofByte (byte : ℕ) :
    DataInformationFieldExtension :=
  { byte := byte
    storage_number := byte &&& 0x0F
    tariff := (byte &&& 0x30) >>> 4
    device_unit := if byte &&& 0x40 ≠ 0 then 1 else 0
    extension := if byte &&& 0x80 ≠ 0 then 1 else 0 }

/-- Constructor `DataInformationFieldExtension(byte)`: byte validation by
the `TelegramField` base class, then sub-field extraction. -/
def mkDIFE (byte : ℕ) : Except PyErr DataInformationFieldExtension := do
  let b ← validate_byte byte
  .ok (DataInformationFieldExtension.ofByte b)

/-- Modelled from the spec: `aiombus/telegrams/fields/value_info.py` is
absent from the sources (only imported), so the `ValueInformationField`
wrapper follows the spec's words — a validated single byte whose bits 0-6
are the value-info code and bit 7 the extension bit (masks
`code 0x7F`, `extension 0x80`; constructors reject bytes outside
`[0, 255]`). -/
structure ValueInformationField where
  byte : ℕ
  code : ℕ
  extension : ℕ
deriving DecidableEq, Repr

/-- Sub-field extraction for `ValueInformationField` per the spec's masks. -/
def ValueInformationField.ofByte (byte : ℕ) : ValueInformationField :=
  { byte := byte
    code := byte &&& 0x7F
    extension := if byte &&& 0x80 ≠ 0 then 1 else 0 }

/-- Constructor for `ValueInformationField`: byte validation then
sub-field extraction (modelled from the spec, see
`ValueInformationField`). -/
def mkVIF (byte : ℕ) : Except PyErr ValueInformationField := do
  let b ← validate_byte byte
  .ok (ValueInformationField.ofByte b)

/-- Modelled from the spec: `ValueInformationFieldExtension` is likewise
absent from the sources; same byte layout as `ValueInformationField`. -/
structure ValueInformationFieldExtension where
  byte : ℕ
  code : ℕ
  extension : ℕ
deriving DecidableEq, Repr

/-- Sub-field extraction for `ValueInformationFieldExtension` per the
spec's masks. -/
def ValueInformationFieldExtension.ofByte (byte : ℕ) :
    ValueInformationFieldExtension :=
  { byte := byte
    code := byte &&& 0x7F
    extension := if byte &&& 0x80 ≠ 0 then 1 else 0 }

/-- Constructor for `ValueInformationFieldExtension`: byte validation then
sub-field extraction (modelled from the spec). -/
def mkVIFE (byte : ℕ) : Except PyErr ValueInformationFieldExtension := do
  let b ← validate_byte byte
  .ok (ValueInformationFieldExtension.ofByte b)

/-- Maximum number of extension frames in a DIB or VIB
(`MAX_DIFE_FRAMES = MAX_VIFE_FRAMES = 10`). -/
def MAX_EXT_FRAMES : ℕ := 10

/-- Extension loop of `DataInformationBlock._parse_blocks`
(`aiombus/telegrams/blocks.py`): `while byte := next(ibytes)` reads one
byte per iteration, ending the loop (without appending) when the byte is
falsy, i.e. `0x00`; exhaustion raises `StopIteration`, which `__init__`
converts to `MBusError`; each consumed byte becomes a DIFE; the loop
breaks after a field with extension bit 0; once `pos` reaches
`MAX_DIFE_FRAMES + 1` with the extension bit still set, `MBusError` is
raised.  `pos` starts at 1 in the caller. -/
def difeLoop : List ℕ → ℕ → Except PyErr (List DataInformationFieldExtension)
  | [], _ => .error .mbusError
  | b :: rest, pos =>
    if b = 0 then .ok []
    else do
      let dife ← mkDIFE b
      if dife.extension = 0 then .ok [dife]
      else if pos + 1 = MAX_EXT_FRAMES + 1 then .error .mbusError
      else do
        let difes ← difeLoop rest (pos + 1)
        .ok (dife :: difes)

/-- Embedding of `DataInformationBlock.__init__` / `_parse_blocks`
(`aiombus/telegrams/blocks.py`): one DIF, then the extension loop when
the DIF's extension bit is set; an empty input raises `StopIteration`,
converted to `MBusError` by `__init__`.  The result is the pair
`(dif, difes)` stored on the block. -/
def dibParse (ibytes : List ℕ) :
    Except PyErr (DataInformationField × List DataInformationFieldExtension) :=
  match ibytes with
  | [] => .error .mbusError
  | b :: rest => do
    let dif ← mkDIF b
    if dif.extension = 0 then .ok (dif, [])
    else do
      let difes ← difeLoop rest 1
      .ok (dif, difes)

/-- Extension loop of `ValueInformationBlock._parse_blocks`
(`aiombus/telegrams/blocks.py`): identical to `difeLoop` with VIFE
fields. -/
def vifeLoop : List ℕ → ℕ → Except PyErr (List ValueInformationFieldExtension)
  | [], _ => .error .mbusError
  | b :: rest, pos =>
    if b = 0 then .ok []
    else do
      let vife ← mkVIFE b
      if vife.extension = 0 then .ok [vife]
      else if pos + 1 = MAX_EXT_FRAMES + 1 then .error .mbusError
      else do
        let vifes ← vifeLoop rest (pos + 1)
        .ok (vife :: vifes)

/-- Embedding of `ValueInformationBlock.__init__` / `_parse_blocks`
(`aiombus/telegrams/blocks.py`): identical to `dibParse` with VIF/VIFE
fields. -/
def vibParse (ibytes : List ℕ) :
    Except PyErr (ValueInformationField × List ValueInformationFieldExtension) :=
  match ibytes with
  | [] => .error .mbusError
  | b :: rest => do
    let vif ← mkVIF b
    if vif.extension = 0 then .ok (vif, [])
    else do
      let vifes ← vifeLoop rest 1
      .ok (vif, vifes)

/-- Embedding of `ShortFrame.__init__` / `_parse_frame`
(`aiombus/telegrams/frames.py`).  The parser walks an iterator over the
input: `Field(next(it))` validates the first byte and requires `0x10`
(`MBusDecodeError` otherwise); `ControlField(next(it))` performs no byte
validation (its `__init__` only calls a no-op `_parse_direction`);
`AddressField(next(it))` validates its byte; the checksum byte is stored
raw without any validation or comparison; `Field(next(it))` validates the
fifth byte and requires `0x16`.  A `StopIteration` from a short input is
converted to `MBusDecodeError` by `__init__`; no length ceiling is
enforced, extra bytes are ignored.  The result is the list of the five
stored byte values. -/
def shortFrame (frame : List ℕ) : Except PyErr (List ℕ) :=
  match frame with
  | [] => .error .mbusDecodeError
  | b0 :: rest0 => do
    let s ← validate_byte b0
    if s ≠ 0x10 then .error .mbusDecodeError
    else
      match rest0 with
      | [] => .error .mbusDecodeError
      | b1 :: rest1 =>
        match rest1 with
        | [] => .error .mbusDecodeError
        | b2 :: rest2 => do
          let a ← validate_byte b2
          match rest2 with
          | [] => .error .mbusDecodeError
          | b3 :: rest3 =>
            match rest3 with
            | [] => .error .mbusDecodeError
            | b4 :: _ => do
              let st ← validate_byte b4
              if st ≠ 0x16 then .error .mbusDecodeError
              else .ok [s, b1, a, b3, st]

/-- Result assembled by a `ValueInformationFieldCode` subclass
(`aiombus/telegrams/codes/value_info.py`): its class attributes `DESC`
and `UNIT` and the `_range` multiplier computed by `__init__`
(`None` when the subclass sets no multiplier). -/
structure VIFCodeResult where
  desc : Option String
  unit : Option String
  multiplier : Option ℚ
deriving DecidableEq, Repr

/-- Embedding of `ValueInformationFieldCode.check_coding`: computes
`code = byte & ~EMASK` and raises `MBusError` unless `code & 0x7F`
equals `CMASK`.  The byte of a constructed VIF lies in `[0, 255]`, where
Python's `byte & ~emask` coincides with `byte &&& (255 ^^^ emask)` for the
sub-byte masks used by the table. -/
def check_coding (cmask emask byte : ℕ) : Except PyErr Unit :=
  if (byte &&& (255 ^^^ emask)) &&& 0x7F = cmask then .ok ()
  else .error .mbusError

/-- Embedding of `EnergyWattHourVIFCode`: `CMASK 0b0000000`,
`EMASK 0b111`, energy in Wh, multiplier `10^(e - 3)` with
`e = byte & EMASK`. -/
def energyWattHourCode (byte : ℕ) : Except PyErr VIFCodeResult := do
  _ ← check_coding 0b0000000 0b111 byte
  .ok ⟨some "energy", some "Wh", some ((10 : ℚ) ^ (((byte &&& 0b111 : ℕ) : ℤ) - 3))⟩

/-- Embedding of `EnergyJouleVIFCode`: `CMASK 0b0001000`, `EMASK 0b111`,
energy in J, multiplier `10^e`. -/
def energyJouleCode (byte : ℕ) : Except PyErr VIFCodeResult := do
  _ ← check_coding 0b0001000 0b111 byte
  .ok ⟨some "energy", some "J", some ((10 : ℚ) ^ (((byte &&& 0b111 : ℕ) : ℤ)))⟩

/-- Embedding of `VolumeMeterCubeVIFCode`: `CMASK 0b0010000`,
`EMASK 0b111`, volume in m^3, multiplier `10^(e - 6)`. -/
def volumeMeterCubeCode (byte : ℕ) : Except PyErr VIFCodeResult := do
  _ ← check_coding 0b0010000 0b111 byte
  .ok ⟨some "volume", some "m^3", some ((10 : ℚ) ^ (((byte &&& 0b111 : ℕ) : ℤ) - 6))⟩

/-- Embedding of `VolumeMassKilogramVIFCode`: `CMASK 0b0011000`,
`EMASK 0b111`, mass in kg, multiplier `10^(e - 3)`. -/
def volumeMassKilogramCode (byte : ℕ) : Except PyErr VIFCodeResult := do
  _ ← check_coding 0b0011000 0b111 byte
  .ok ⟨some "mass", some "kg", some ((10 : ℚ) ^ (((byte &&& 0b111 : ℕ) : ℤ) - 3))⟩

/-- Embedding of `OperatingTimeVIFCode` (subclass of `OnTimeVIFCode` with
`CMASK 0b0100100`, `EMASK 0b11`): no multiplier; the unit is chosen by
the inherited `__init__`, whose final `else` is attached only to the
`unit == 1` test, so the stored unit is "minute" for `e = 1` and
"second" for every other `e` (the earlier "day"/"hour" assignments are
overwritten). -/
def operatingTimeCode (byte : ℕ) : Except PyErr VIFCodeResult := do
  _ ← check_coding 0b0100100 0b11 byte
  let u := byte &&& 0b11
  .ok ⟨some "on time", some (if u = 1 then "minute" else "second"), none⟩

/-- Embedding of `PowerWattVIFCode`: `CMASK 0b0101000`, `EMASK 0b111`,
power in W, multiplier `10^(e - 3)`. -/
def powerWattCode (byte : ℕ) : Except PyErr VIFCodeResult := do
  _ ← check_coding 0b0101000 0b111 byte
  .ok ⟨some "power", some "W", some ((10 : ℚ) ^ (((byte &&& 0b111 : ℕ) : ℤ) - 3))⟩

/-- Embedding of `get_vif_code`: tries each code class of
`VIF_CODE_TYPES` on the VIF, swallowing any exception, and returns the
first successfully constructed code, or `None` when every class fails.
The source stores the classes in a set literal, so its iteration order is
arbitrary; the rows' match conditions are pairwise disjoint (no byte
satisfies two different `check_coding` tests), so trying them in the
literal's textual order is observationally equivalent. -/
def get_vif_code (vif : ValueInformationField) : Option VIFCodeResult :=
  match energyWattHourCode vif.byte with
  | .ok r => some r
  | .error _ =>
    match energyJouleCode vif.byte with
    | .ok r => some r
    | .error _ =>
      match volumeMeterCubeCode vif.byte with
      | .ok r => some r
      | .error _ =>
        match volumeMassKilogramCode vif.byte with
        | .ok r => some r
        | .error _ =>
          match operatingTimeCode vif.byte with
          | .ok r => some r
          | .error _ =>
            match powerWattCode vif.byte with
            | .ok r => some r
            | .error _ => none

/-! Helper lemmas about the integer decoders. -/

set_option maxRecDepth 4096 in
/-- Xor with `0xFF` complements a byte. -/
lemma xor_255_of_lt : ∀ b : ℕ, b < 256 → b ^^^ 255 = 255 - b := by decide

/-- The accumulation loop of `parse_binary_integer` over a positive
sequence computes the little-endian value. -/
lemma foldr_binAcc_false (l : List ℕ) :
    l.foldr (fun b acc => binAccStep false acc b) 0 = (littleEndianValue l : ℤ) := by
  induction l with
  | nil => rfl
  | cons b rest ih =>
    rw [List.foldr_cons, ih]
    simp only [binAccStep, BYTE, littleEndianValue]
    push_cast
    ring

/-- The accumulation loop of `parse_binary_integer` over a negative
sequence computes the bytewise complement of the little-endian value. -/
lemma foldr_binAcc_true (l : List ℕ) (h : ∀ b ∈ l, b < 256) :
    l.foldr (fun b acc => binAccStep true acc b) 0 =
      2 ^ (8 * l.length) - 1 - (littleEndianValue l : ℤ) := by
  induction l with
  | nil => rfl
  | cons b rest ih =>
    have hb : b < 256 := h b (List.mem_cons_self b rest)
    have hrest : ∀ x ∈ rest, x < 256 := fun x hx => h x (List.mem_cons_of_mem b hx)
    have hxor : ((b ^^^ 255 : ℕ) : ℤ) = 255 - (b : ℤ) := by
      rw [xor_255_of_lt b hb]
      push_cast [Nat.le_of_lt_succ hb]
      ring
    rw [List.foldr_cons, ih hrest]
    simp only [binAccStep, BYTE, littleEndianValue, List.length_cons, hxor]
    have hpow : (2 : ℤ) ^ (8 * (rest.length + 1)) = 2 ^ (8 * rest.length) * 2 ^ 8 := by
      rw [Nat.mul_add, pow_add]
    push_cast
    rw [hpow]
    ring

/-- A list of bytes passes the `bytes(...)` conversion. -/
lemma pyBytes_ok (l : List ℕ) (h : ∀ b ∈ l, b < 256) : pyBytes l = .ok l := by
  have : l.all (fun b => b < 256) = true :=
    List.all_eq_true.mpr fun x hx => by simpa using h x hx
  simp [pyBytes, this]

/-- C1. For every non-empty byte sequence, `parse_binary_integer`
(Type B) returns the two's-complement signed integer obtained by reading
the bytes in little-endian order over the full payload width: if `u` is
the little-endian unsigned value of the `n` bytes and bit 7 of the last
(highest-order) byte is set, the result is `u - 2^(8n)`, otherwise `u`. -/
theorem parse_binary_integer_le_twos_complement
    (l : List ℕ) (h : l ≠ []) (hb : ∀ b ∈ l, b < 256) :
    parse_binary_integer l =
      .ok (if l.getLast h &&& 0x80 ≠ 0
             then (littleEndianValue l : ℤ) - 2 ^ (8 * l.length)
             else (littleEndianValue l : ℤ)) := by
  have hrev : l.reverse ≠ [] := by simpa using h
  cases hr : l.reverse with
  | nil => exact absurd hr hrev
  | cons b0 rest =>
    have hb0 : b0 = l.getLast h := by
      have h2 := List.head_reverse (l := l) (by simp [hr])
      simpa [hr] using h2
    have hfold : ∀ neg : Bool,
        (b0 :: rest).foldl (binAccStep neg) 0 =
          l.foldr (fun b acc => binAccStep neg acc b) 0 := by
      intro neg
      rw [← hr, List.foldl_reverse]
    simp only [parse_binary_integer, pyBytes_ok l hb, hr]
    rw [← hb0]
    by_cases hneg : b0 &&& 0x80 ≠ 0
    · rw [if_pos hneg, decide_eq_true hneg]
      simp only [if_true, hfold, foldr_binAcc_true l hb]
      congr 1
      ring
    · rw [if_neg hneg, decide_eq_false hneg]
      simp only [Bool.false_eq_true, if_false, hfold, foldr_binAcc_false l]

/-- Witness for C1: the claim's concrete examples `FF → -1`,
`FF 01 → 511`, `FF 81 → -32257` and `80 → -128`. -/
theorem parse_binary_integer_le_twos_complement_witness :
    parse_binary_integer [0xFF] = .ok (-1) ∧
    parse_binary_integer [0xFF, 0x01] = .ok 511 ∧
    parse_binary_integer [0xFF, 0x81] = .ok (-32257) ∧
    parse_binary_integer [0x80] = .ok (-128) := by
  refine ⟨?_, ?_, ?_, ?_⟩
  · rw [parse_binary_integer_le_twos_complement [0xFF] (by decide) (by decide)]
    decide
  · rw [parse_binary_integer_le_twos_complement [0xFF, 0x01] (by decide)
      (by decide)]
    decide
  · rw [parse_binary_integer_le_twos_complement [0xFF, 0x81] (by decide)
      (by decide)]
    decide
  · rw [parse_binary_integer_le_twos_complement [0x80] (by decide) (by decide)]
    decide

/-- Counterexample to C2: on `01 FF` the decoder returns the big-endian
value 511, not the little-endian value 65281 claimed by the spec. -/
theorem parse_unsigned_integer_not_little_endian :
    parse_unsigned_integer [0x01, 0xFF] = .ok 511 ∧
    littleEndianValue [0x01, 0xFF] = 65281 ∧
    parse_unsigned_integer [0x01, 0xFF] ≠ .ok (littleEndianValue [0x01, 0xFF]) := by
  decide

/-- C2 (amended). For every non-empty byte sequence,
`parse_unsigned_integer` (Type C) returns the unsigned integer obtained
by reading the bytes in big-endian order: the first byte is the most
significant, i.e. the result is the little-endian value of the reversed
sequence. -/
theorem parse_unsigned_integer_big_endian
    (l : List ℕ) (h : l ≠ []) (hb : ∀ b ∈ l, b < 256) :
    parse_unsigned_integer l = .ok (littleEndianValue l.reverse) := by
  have hfold : ∀ m : List ℕ,
      littleEndianValue m.reverse = m.foldl (fun acc b => acc * 2 ^ BYTE + b) 0 := by
    intro m
    have hle : ∀ k : List ℕ,
        littleEndianValue k = k.foldr (fun b acc => b + 256 * acc) 0 := by
      intro k
      induction k with
      | nil => rfl
      | cons b rest ih => simp [littleEndianValue, ih]
    rw [hle, List.foldr_reverse]
    have : (fun (acc : ℕ) (b : ℕ) => acc * 2 ^ BYTE + b) =
        fun acc b => b + 256 * acc := by
      funext a c
      simp [BYTE]
      ring
    rw [this]
  simp [parse_unsigned_integer, pyBytes_ok l hb, h, hfold]

/-- Witness for C2 (amended): `01 FF` decodes to 511 = `0x01FF`. -/
theorem parse_unsigned_integer_big_endian_witness :
    parse_unsigned_integer [0x01, 0xFF] =
      .ok (littleEndianValue (List.reverse [0x01, 0xFF])) := by
  exact parse_unsigned_integer_big_endian [0x01, 0xFF] (by decide) (by decide)

/-- Counterexample to C3: the 5-byte sequence `10 02 03 04 16` is
accepted by the ShortFrame parser although its checksum byte 4 differs
from `(C + A) mod 256 = 5`; this is also the repository's own accepted
test vector in `tests/aiombus/telegrams/test_frames.py`. -/
theorem shortFrame_accepts_bad_checksum :
    shortFrame [0x10, 2, 3, 4, 0x16] = .ok [0x10, 2, 3, 4, 0x16] ∧
    (2 + 3) % 256 ≠ 4 := by
  decide

/-- C3 (amended). A 5-byte sequence is accepted by the ShortFrame parser
if and only if its first byte is `0x10` and its fifth byte is `0x16`;
the fourth (checksum) byte is stored without being compared against
`(C + A) mod 256`, and a start or stop mismatch yields
`MBusDecodeError`. -/
theorem shortFrame_accept_iff_start_stop
    (b0 b1 b2 b3 b4 : ℕ) (h0 : b0 < 256) (_h1 : b1 < 256)
    (h2 : b2 < 256) (_h3 : b3 < 256) (h4 : b4 < 256) :
    shortFrame [b0, b1, b2, b3, b4] =
      if b0 = 0x10 ∧ b4 = 0x16 then .ok [b0, b1, b2, b3, b4]
      else .error .mbusDecodeError := by
  by_cases hs : b0 = 0x10 <;> by_cases ht : b4 = 0x16 <;>
    simp [shortFrame, validate_byte, h0, h2, h4, hs, ht, Bind.bind, Except.bind]

/-- Witness for C3 (amended): a frame with matching start and stop bytes
and an arbitrary checksum byte is accepted. -/
theorem shortFrame_accept_iff_start_stop_witness :
    shortFrame [0x10, 7, 8, 9, 0x16] =
      if (0x10 : ℕ) = 0x10 ∧ (0x16 : ℕ) = 0x16 then .ok [0x10, 7, 8, 9, 0x16]
      else .error .mbusDecodeError := by
  exact shortFrame_accept_iff_start_stop 0x10 7 8 9 0x16 (by decide) (by decide)
    (by decide) (by decide) (by decide)

/-- C5. Eleven bytes with bit 7 set make both the DIB and the VIB parser
fail; the raised exception, however, is the base `MBusError` (raised
verbatim by `_parse_blocks`), not the `MBusDecodeError` ("Decode") class
demanded by the spec and by the repository's test
`tests/aiombus/telegrams/blocks/test_dib.py::test_dib_init`. -/
theorem dib_vib_eleven_extension_bytes_fail :
    dibParse (List.replicate 11 0x80) = .error .mbusError ∧
    vibParse (List.replicate 11 0x80) = .error .mbusError ∧
    dibParse (List.replicate 11 0x80) ≠ .error .mbusDecodeError ∧
    vibParse (List.replicate 11 0x80) ≠ .error .mbusDecodeError := by
  decide

/-- Year formula written the way the spec states it:
`((b1 & 0xF0) | ((b0 & 0xE0) >> 4)) >> 1` with the century rule at 81.
This claim-side definition is compared against the source's
`get_year`. -/
def specYear (b0 b1 : ℕ) : ℕ :=
  let y := ((b1 &&& 0xF0) ||| ((b0 &&& 0xE0) >>> 4)) >>> 1
  if y < 81 then 2000 + y else 1900 + y

/-- C6. For every 2-byte frame whose extracted components form a valid
calendar date, `get_date` returns day `b0 & 0x1F`, month `b1 & 0x0F` and
the year given by the spec's formula with the century rule. -/
theorem get_date_components
    (b0 b1 : ℕ) (h0 : b0 < 256) (h1 : b1 < 256)
    (hv : dateValid (specYear b0 b1) (b1 &&& 0x0F) (b0 &&& 0x1F) = true) :
    get_date [b0, b1] = .ok ⟨specYear b0 b1, b1 &&& 0x0F, b0 &&& 0x1F⟩ := by
  have hb : ∀ b ∈ [b0, b1], b < 256 := by
    intro b hmem
    rcases List.mem_pair.mp hmem with rfl | rfl <;> assumption
  have hgy : get_year b0 b1 = specYear b0 b1 := rfl
  simp [get_date, pyBytes_ok _ hb, pyDate, hgy, get_month, get_day, hv]

/-- Witness for C6: the claim's concrete examples
`0A 25 → Date(2016, 5, 10)` and `45 2C → Date(2018, 12, 5)`. -/
theorem get_date_components_witness :
    get_date [0x0A, 0x25] = .ok ⟨2016, 5, 10⟩ ∧
    get_date [0x45, 0x2C] = .ok ⟨2018, 12, 5⟩ := by
  constructor
  · rw [get_date_components 0x0A 0x25 (by decide) (by decide) (by decide)]
    decide
  · rw [get_date_components 0x45 0x2C (by decide) (by decide) (by decide)]
    decide

/-- Counterexample to C7: the date frame `01 00` extracts month 0, which
is invalid, and decoding fails with Python's built-in `ValueError`
escaping from `datetime.date`, not with an error of the program's MBus
error taxonomy. -/
theorem get_date_invalid_raises_valueerror :
    get_date [1, 0] = .error .valueError ∧
    get_date [1, 0] ≠ .error .mbusDecodeError ∧
    get_date [1, 0] ≠ .error .mbusError ∧
    get_date [1, 0] ≠ .error .mbusValidationError := by
  decide

/-- C7 (amended). For every date, time, or date-time frame whose
extracted components violate calendar validity, decoding fails with
Python's built-in `ValueError` (raised by the `datetime` constructors and
not caught by the library), not with an MBus Decode error; no value is
returned. -/
theorem date_time_invalid_components_valueerror :
    (∀ b0 b1 : ℕ, b0 < 256 → b1 < 256 →
      dateValid (specYear b0 b1) (b1 &&& 0x0F) (b0 &&& 0x1F) = false →
      get_date [b0, b1] = .error .valueError) ∧
    (∀ b0 b1 : ℕ, b0 < 256 → b1 < 256 →
      timeValid (b1 &&& 0x1F) (b0 &&& 0x3F) 0 = false →
      get_time [b0, b1] = .error .valueError) ∧
    (∀ b0 b1 b2 : ℕ, b0 < 256 → b1 < 256 → b2 < 256 →
      timeValid (b1 &&& 0x1F) (b0 &&& 0x3F) (b2 &&& 0x3F) = false →
      get_time [b0, b1, b2] = .error .valueError) ∧
    (∀ b0 b1 b2 b3 b4 : ℕ, b0 < 256 → b1 < 256 → b2 < 256 → b3 < 256 →
      b4 < 256 →
      timeValid (b1 &&& 0x1F) (b0 &&& 0x3F) (b4 &&& 0x3F) = false →
      get_time [b0, b1, b2, b3, b4] = .error .valueError) ∧
    (∀ b0 b1 b2 b3 : ℕ, b0 < 256 → b1 < 256 → b2 < 256 → b3 < 256 →
      (dateValid (specYear b2 b3) (b3 &&& 0x0F) (b2 &&& 0x1F) &&
        timeValid (b1 &&& 0x1F) (b0 &&& 0x3F) 0) = false →
      get_datetime [b0, b1, b2, b3] = .error .valueError) ∧
    (∀ b0 b1 b2 b3 b4 : ℕ, b0 < 256 → b1 < 256 → b2 < 256 → b3 < 256 →
      b4 < 256 →
      (dateValid (specYear b2 b3) (b3 &&& 0x0F) (b2 &&& 0x1F) &&
        timeValid (b1 &&& 0x1F) (b0 &&& 0x3F) (b4 &&& 0x3F)) = false →
      get_datetime [b0, b1, b2, b3, b4] = .error .valueError) := by
  refine ⟨?_, ?_, ?_, ?_, ?_, ?_⟩
  · intro b0 b1 h0 h1 hv
    have hb : ∀ b ∈ [b0, b1], b < 256 := by
      intro b hmem
      rcases List.mem_pair.mp hmem with rfl | rfl <;> assumption
    have hgy : get_year b0 b1 = specYear b0 b1 := rfl
    simp [get_date, pyBytes_ok _ hb, pyDate, hgy, get_month, get_day, hv]
  · intro b0 b1 h0 h1 hv
    have hb : ∀ b ∈ [b0, b1], b < 256 := by
      intro b hmem
      rcases List.mem_pair.mp hmem with rfl | rfl <;> assumption
    simp [get_time, pyBytes_ok _ hb, pyTime, get_hour, get_minute, get_second,
      timeSecByte, hv]
  · intro b0 b1 b2 h0 h1 h2 hv
    have hb : ∀ b ∈ [b0, b1, b2], b < 256 := by
      intro b hmem
      simp only [List.mem_cons, List.not_mem_nil, or_false] at hmem
      rcases hmem with rfl | rfl | rfl <;> assumption
    simp [get_time, pyBytes_ok _ hb, pyTime, get_hour, get_minute, get_second,
      timeSecByte, hv]
  · intro b0 b1 b2 b3 b4 h0 h1 h2 h3 h4 hv
    have hb : ∀ b ∈ [b0, b1, b2, b3, b4], b < 256 := by
      intro b hmem
      simp only [List.mem_cons, List.not_mem_nil, or_false] at hmem
      rcases hmem with rfl | rfl | rfl | rfl | rfl <;> assumption
    simp [get_time, pyBytes_ok _ hb, pyTime, get_hour, get_minute, get_second,
      timeSecByte, hv]
  · intro b0 b1 b2 b3 h0 h1 h2 h3 hv
    have hb : ∀ b ∈ [b0, b1, b2, b3], b < 256 := by
      intro b hmem
      simp only [List.mem_cons, List.not_mem_nil, or_false] at hmem
      rcases hmem with rfl | rfl | rfl | rfl <;> assumption
    have hgy : get_year b2 b3 = specYear b2 b3 := rfl
    simp [get_datetime, pyBytes_ok _ hb, pyDateTime, hgy, get_month, get_day,
      get_hour, get_minute, get_second, hv]
  · intro b0 b1 b2 b3 b4 h0 h1 h2 h3 h4 hv
    have hb : ∀ b ∈ [b0, b1, b2, b3, b4], b < 256 := by
      intro b hmem
      simp only [List.mem_cons, List.not_mem_nil, or_false] at hmem
      rcases hmem with rfl | rfl | rfl | rfl | rfl <;> assumption
    have hgy : get_year b2 b3 = specYear b2 b3 := rfl
    simp [get_datetime, pyBytes_ok _ hb, pyDateTime, hgy, get_month, get_day,
      get_hour, get_minute, get_second, hv]

/-- Witness for C7 (amended): the date frame `01 00` (month 0), the time
frame `00 18` (hour 24) and the date-time frame `00 00 01 00` (month 0)
each fail with `ValueError`. -/
theorem date_time_invalid_components_valueerror_witness :
    get_date [1, 0] = .error .valueError ∧
    get_time [0, 24] = .error .valueError ∧
    get_datetime [0, 0, 1, 0] = .error .valueError := by
  refine ⟨?_, ?_, ?_⟩
  · exact date_time_invalid_components_valueerror.1 1 0 (by decide) (by decide)
      (by decide)
  · exact date_time_invalid_components_valueerror.2.1 0 24 (by decide)
      (by decide) (by decide)
  · exact date_time_invalid_components_valueerror.2.2.2.2.1 0 0 1 0 (by decide)
      (by decide) (by decide) (by decide) (by decide)

set_option maxRecDepth 8192 in
/-- C9. For every byte `b` in `[0, 255]`, constructing `DIF(b)` and
`DIFE(b)` succeeds and the extracted sub-fields recompose to the original
byte via `data | (function << 4) | (sn_lsb << 6) | (extension << 7)` and
`storage_number | (tariff << 4) | (device_unit << 6) | (extension << 7)`
respectively. -/
theorem dif_dife_subfields_recompose : ∀ b : ℕ, b < 256 →
    ((mkDIF b).map fun d =>
      d.data ||| (d.function <<< 4) ||| (d.storage_number_lsb <<< 6) |||
        (d.extension <<< 7)) = .ok b ∧
    ((mkDIFE b).map fun e =>
      e.storage_number ||| (e.tariff <<< 4) ||| (e.device_unit <<< 6) |||
        (e.extension <<< 7)) = .ok b := by
  decide

/-- Witness for C9: recomposition at the byte `0xAB`. -/
theorem dif_dife_subfields_recompose_witness :
    ((mkDIF 0xAB).map fun d =>
      d.data ||| (d.function <<< 4) ||| (d.storage_number_lsb <<< 6) |||
        (d.extension <<< 7)) = .ok 0xAB ∧
    ((mkDIFE 0xAB).map fun e =>
      e.storage_number ||| (e.tariff <<< 4) ||| (e.device_unit <<< 6) |||
        (e.extension <<< 7)) = .ok 0xAB := by
  exact dif_dife_subfields_recompose 0xAB (by decide)

set_option maxRecDepth 8192 in
/-- A byte matching the power row cannot match the operating-time row:
clearing the 3-bit exponent yields `0b0101000` only if clearing the 2-bit
exponent yields `0b0101000` or `0b0101100`, never `0b0100100`. -/
lemma optime_no_match_of_power :
    ∀ b : ℕ, b < 256 → (b &&& (255 ^^^ 0b111)) &&& 0x7F = 0b0101000 →
      (b &&& (255 ^^^ 0b11)) &&& 0x7F ≠ 0b0100100 := by
  decide

/-- C8. For every VIF byte whose low 7 bits, after clearing the exponent
bits, equal the power-row code mask `0b0101000`, `get_vif_code` matches
the power row with unit W and multiplier `10^(e - 3)` where
`e = byte & 0b111`; and for a VIF byte matching no implemented row it
returns `None` rather than raising an error. -/
theorem get_vif_code_power_row (b : ℕ) (hb : b < 256) :
    ((b &&& (255 ^^^ 0b111)) &&& 0x7F = 0b0101000 →
      get_vif_code (ValueInformationField.ofByte b) =
        some ⟨some "power", some "W",
          some ((10 : ℚ) ^ (((b &&& 0b111 : ℕ) : ℤ) - 3))⟩) ∧
    ((b &&& (255 ^^^ 0b111)) &&& 0x7F ≠ 0b0000000 →
      (b &&& (255 ^^^ 0b111)) &&& 0x7F ≠ 0b0001000 →
      (b &&& (255 ^^^ 0b111)) &&& 0x7F ≠ 0b0010000 →
      (b &&& (255 ^^^ 0b111)) &&& 0x7F ≠ 0b0011000 →
      (b &&& (255 ^^^ 0b11)) &&& 0x7F ≠ 0b0100100 →
      (b &&& (255 ^^^ 0b111)) &&& 0x7F ≠ 0b0101000 →
      get_vif_code (ValueInformationField.ofByte b) = none) := by
  constructor
  · intro hm
    have hop : b &&& 252 &&& 127 ≠ 36 := by
      simpa using optime_no_match_of_power b hb hm
    have hm' : b &&& 248 &&& 127 = 40 := by simpa using hm
    simp [get_vif_code, energyWattHourCode, energyJouleCode,
      volumeMeterCubeCode, volumeMassKilogramCode, operatingTimeCode,
      powerWattCode, check_coding, ValueInformationField.ofByte, Bind.bind,
      Except.bind, hm', hop]
  · intro h0 h8 h16 h24 h36 h40
    have h0' : b &&& 248 &&& 127 ≠ 0 := by simpa using h0
    have h8' : b &&& 248 &&& 127 ≠ 8 := by simpa using h8
    have h16' : b &&& 248 &&& 127 ≠ 16 := by simpa using h16
    have h24' : b &&& 248 &&& 127 ≠ 24 := by simpa using h24
    have h36' : b &&& 252 &&& 127 ≠ 36 := by simpa using h36
    have h40' : b &&& 248 &&& 127 ≠ 40 := by simpa using h40
    simp [get_vif_code, energyWattHourCode, energyJouleCode,
      volumeMeterCubeCode, volumeMassKilogramCode, operatingTimeCode,
      powerWattCode, check_coding, ValueInformationField.ofByte, Bind.bind,
      Except.bind, h0', h8', h16', h24', h36', h40']

/-- Witness for C8: VIF byte `0xA9` yields the power row with multiplier
`10^(-2) = 1/100`, and VIF byte `0x7F` matches no implemented row and
yields `None`. -/
theorem get_vif_code_power_row_witness :
    get_vif_code (ValueInformationField.ofByte 0xA9) =
      some ⟨some "power", some "W", some ((1 : ℚ) / 100)⟩ ∧
    get_vif_code (ValueInformationField.ofByte 0x7F) = none := by
  constructor
  · rw [(get_vif_code_power_row 0xA9 (by decide)).1 (by decide)]
    have h1 : (0xA9 &&& 0b111 : ℕ) = 1 := by decide
    rw [h1]
    norm_num
  · exact (get_vif_code_power_row 0x7F (by decide)).2 (by decide) (by decide)
      (by decide) (by decide) (by decide) (by decide)

/-! Helper lemmas about the DIB and VIB chain parsers. -/

/-- A byte with bit 7 set yields a DIFE with extension flag 1. -/
lemma dife_ext_bit_one (b : ℕ) (h : b &&& 0x80 ≠ 0) :
    (DataInformationFieldExtension.ofByte b).extension = 1 := by
  simp [DataInformationFieldExtension.ofByte, h]

/-- Constructing a DIFE from a valid byte succeeds. -/
lemma mkDIFE_ok (b : ℕ) (h : b < 256) :
    mkDIFE b = .ok (DataInformationFieldExtension.ofByte b) := by
  simp [mkDIFE, validate_byte, h, Bind.bind, Except.bind]

/-- Constructing a DIF from a valid byte succeeds. -/
lemma mkDIF_ok (b : ℕ) (h : b < 256) :
    mkDIF b = .ok (DataInformationField.ofByte b) := by
  simp [mkDIF, validate_byte, h, Bind.bind, Except.bind]

/-- A DIF extension flag that is not 0 is 1. -/
lemma dif_ext_one (b : ℕ) (h : ¬(DataInformationField.ofByte b).extension = 0) :
    (DataInformationField.ofByte b).extension = 1 := by
  simp only [DataInformationField.ofByte] at h ⊢
  by_cases hbit : b &&& 128 ≠ 0
  · simp [hbit]
  · simp [hbit] at h

/-- The DIFE loop on a chain of extension bytes followed by a zero byte
consumes exactly the chain and drops the zero byte, provided the chain is
short enough not to trip the extension-count check. -/
lemma difeLoop_chain_zero (chain : List ℕ) : ∀ (pos : ℕ) (rest : List ℕ),
    (∀ c ∈ chain, c < 256 ∧ c &&& 0x80 ≠ 0) → chain.length + pos ≤ 10 →
    difeLoop (chain ++ 0 :: rest) pos =
      .ok (chain.map DataInformationFieldExtension.ofByte) := by
  induction chain with
  | nil =>
    intro pos rest _ _
    simp [difeLoop]
  | cons c cs ih =>
    intro pos rest h hlen
    have hc := h c (List.mem_cons_self c cs)
    have hcs : ∀ x ∈ cs, x < 256 ∧ x &&& 0x80 ≠ 0 := fun x hx =>
      h x (List.mem_cons_of_mem c hx)
    have hc0 : c ≠ 0 := by
      intro h0
      subst h0
      simp at hc
    have hpos : ¬(pos + 1 = MAX_EXT_FRAMES + 1) := by
      simp only [MAX_EXT_FRAMES]
      simp only [List.length_cons] at hlen
      omega
    have hrec := ih (pos + 1) rest hcs
      (by simp only [List.length_cons] at hlen; omega)
    simp [difeLoop, hc0, mkDIFE_ok c hc.1, dife_ext_bit_one c hc.2, hpos, hrec,
      Bind.bind, Except.bind]

/-- On a sequence of valid bytes, the only error the DIFE loop can raise
is the base `MBusError` (from exhaustion or from the extension-count
check). -/
lemma difeLoop_error_mbus : ∀ (bs : List ℕ) (pos : ℕ) (e : PyErr),
    (∀ b ∈ bs, b < 256) → difeLoop bs pos = .error e → e = .mbusError := by
  intro bs
  induction bs with
  | nil =>
    intro pos e _ he
    simp [difeLoop] at he
    exact he.symm
  | cons b rest ih =>
    intro pos e hb he
    have hb0 := hb b (List.mem_cons_self b rest)
    have hrest : ∀ x ∈ rest, x < 256 := fun x hx =>
      hb x (List.mem_cons_of_mem b hx)
    by_cases hz : b = 0
    · simp [difeLoop, hz] at he
    · rw [difeLoop, if_neg hz, mkDIFE_ok b hb0] at he
      by_cases hex : (DataInformationFieldExtension.ofByte b).extension = 0
      · simp [hex, Bind.bind, Except.bind] at he
      · by_cases hpos : pos + 1 = MAX_EXT_FRAMES + 1
        · simp [hex, hpos, Bind.bind, Except.bind] at he
          exact he.symm
        · simp only [Bind.bind, Except.bind, hex, if_neg hpos, if_false] at he
          cases hl : difeLoop rest (pos + 1) with
          | error e2 =>
            rw [hl] at he
            simp at he
            exact ih (pos + 1) e2 hrest hl ▸ he.symm
          | ok difes =>
            rw [hl] at he
            simp at he

/-- Structural invariant of a successful DIFE loop: at most `11 - pos`
fields are produced, every field before the last has extension flag 1,
and the last field either has extension flag 0 or is followed in the
input by the zero byte that ended the loop. -/
lemma difeLoop_ok_invariant : ∀ (bs : List ℕ) (pos : ℕ)
    (difes : List DataInformationFieldExtension),
    pos ≤ 10 → difeLoop bs pos = .ok difes →
    difes.length + pos ≤ 11 ∧
    (∀ f ∈ difes.dropLast, f.extension = 1) ∧
    (difes = [] → bs.get? 0 = some 0) ∧
    (∀ f, difes.getLast? = some f →
      f.extension = 0 ∨ bs.get? difes.length = some 0) := by
  intro bs
  induction bs with
  | nil =>
    intro pos difes _ he
    simp [difeLoop] at he
  | cons b rest ih =>
    intro pos difes hpos10 he
    by_cases hz : b = 0
    · rw [difeLoop, if_pos hz] at he
      simp only [Except.ok.injEq] at he
      subst he
      refine ⟨by simp only [List.length_nil]; omega, by simp, ?_, by simp⟩
      intro _
      simp [hz]
    · rw [difeLoop, if_neg hz] at he
      cases hvb : mkDIFE b with
      | error e =>
        rw [hvb] at he
        simp [Bind.bind, Except.bind] at he
      | ok dife =>
        rw [hvb] at he
        by_cases hex : dife.extension = 0
        · simp only [Bind.bind, Except.bind, hex, if_true, if_pos rfl,
            Except.ok.injEq] at he
          subst he
          refine ⟨by simp; omega, by simp, by simp, ?_⟩
          intro f hf
          simp only [List.getLast?_singleton, Option.some.injEq] at hf
          exact Or.inl (hf ▸ hex)
        · by_cases hmax : pos + 1 = MAX_EXT_FRAMES + 1
          · simp [Bind.bind, Except.bind, hex, hmax] at he
          · simp only [Bind.bind, Except.bind, hex, if_neg hmax, if_false] at he
            cases hl : difeLoop rest (pos + 1) with
            | error e2 =>
              rw [hl] at he
              simp at he
            | ok difes2 =>
              rw [hl] at he
              simp only [Except.ok.injEq] at he
              subst he
              have hpos1 : pos + 1 ≤ 10 := by
                simp only [MAX_EXT_FRAMES] at hmax
                omega
              obtain ⟨ihlen, ihdrop, ihnil, ihlast⟩ :=
                ih (pos + 1) difes2 hpos1 hl
              have hext1 : dife.extension = 1 := by
                cases hvb2 : validate_byte b with
                | error e => simp [mkDIFE, hvb2, Bind.bind, Except.bind] at hvb
                | ok b2 =>
                  have hdz : dife = DataInformationFieldExtension.ofByte b2 := by
                    simp [mkDIFE, hvb2, Bind.bind, Except.bind] at hvb
                    exact hvb.symm
                  subst hdz
                  simp only [DataInformationFieldExtension.ofByte] at hex ⊢
                  by_cases hbit : b2 &&& 128 ≠ 0
                  · simp [hbit]
                  · simp [hbit] at hex ⊢
              refine ⟨by simp; omega, ?_, by simp, ?_⟩
              · intro f hf
                cases difes2 with
                | nil => simp at hf
                | cons g gs =>
                  rw [List.dropLast_cons_of_ne_nil (by simp)] at hf
                  rcases List.mem_cons.mp hf with rfl | hf2
                  · exact hext1
                  · exact ihdrop f hf2
              · intro f hf
                cases difes2 with
                | nil =>
                  simp only [List.getLast?_singleton, Option.some.injEq] at hf
                  subst hf
                  right
                  simpa using ihnil rfl
                | cons g gs =>
                  have hf2 : (g :: gs).getLast? = some f := by
                    simpa using hf
                  rcases ihlast f hf2 with h0 | hrest0
                  · exact Or.inl h0
                  · right
                    simpa using hrest0

/-- Counterexample to C4: on `80 00` the DIB parser succeeds and returns
a block consisting of one single field whose extension bit is 1, so the
extension bit is not 0 on the last field and no Decode error is
produced. -/
theorem dibParse_zero_terminated_block_ext_set :
    dibParse [0x80, 0x00] = .ok (DataInformationField.ofByte 0x80, []) ∧
    (DataInformationField.ofByte 0x80).extension = 1 := by
  decide

/-- C4 (amended). For any byte sequence, DIB parsing either fails with
the base `MBusError` or returns a block of `1 + k` fields (one DIF
followed by `k` DIFEs) with `k ≤ 10`, in which the extension bit is 1 on
every field except the last; the last field has extension bit 0 unless
the chain was terminated by a `0x00` input byte immediately following the
consumed fields, in which case the last field may carry extension bit 1
(and the `0x00` byte is not part of the block). -/
theorem dibParse_block_invariant (bs : List ℕ) (hb : ∀ b ∈ bs, b < 256) :
    dibParse bs = .error .mbusError ∨
    ∃ dif difes, dibParse bs = .ok (dif, difes) ∧
      difes.length ≤ 10 ∧
      (difes ≠ [] → dif.extension = 1) ∧
      (∀ f ∈ difes.dropLast, f.extension = 1) ∧
      (difes = [] → dif.extension = 0 ∨ bs.get? 1 = some 0) ∧
      (∀ f, difes.getLast? = some f →
        f.extension = 0 ∨ bs.get? (difes.length + 1) = some 0) := by
  cases bs with
  | nil => exact Or.inl rfl
  | cons b rest =>
    have hb0 : b < 256 := hb b (List.mem_cons_self b rest)
    have hrest : ∀ x ∈ rest, x < 256 := fun x hx =>
      hb x (List.mem_cons_of_mem b hx)
    have hmk := mkDIF_ok b hb0
    by_cases hex : (DataInformationField.ofByte b).extension = 0
    · right
      refine ⟨DataInformationField.ofByte b, [], ?_, by simp, by simp, by simp,
        fun _ => Or.inl hex, by simp⟩
      simp [dibParse, hmk, hex, Bind.bind, Except.bind]
    · cases hl : difeLoop rest 1 with
      | error e =>
        left
        have he := difeLoop_error_mbus rest 1 e hrest hl
        subst he
        simp [dibParse, hmk, hex, hl, Bind.bind, Except.bind]
      | ok difes =>
        right
        obtain ⟨hlen, hdrop, hnil, hlast⟩ :=
          difeLoop_ok_invariant rest 1 difes (by omega) hl
        refine ⟨DataInformationField.ofByte b, difes, ?_, by omega,
          fun _ => dif_ext_one b hex, hdrop, ?_, ?_⟩
        · simp [dibParse, hmk, hex, hl, Bind.bind, Except.bind]
        · intro hd
          right
          simpa using hnil hd
        · intro f hf
          rcases hlast f hf with h0 | h1
          · exact Or.inl h0
          · right
            simpa using h1

/-- Witness for C4 (amended): the invariant instantiated on the sequence
`8F 80 00 55` (a DIF, one DIFE, a terminating zero byte and a trailing
byte). -/
theorem dibParse_block_invariant_witness :
    (∀ b ∈ [0x8F, 0x80, 0x00, 0x55], b < 256) ∧
    (dibParse [0x8F, 0x80, 0x00, 0x55] = .error .mbusError ∨
    ∃ dif difes, dibParse [0x8F, 0x80, 0x00, 0x55] = .ok (dif, difes) ∧
      difes.length ≤ 10 ∧
      (difes ≠ [] → dif.extension = 1) ∧
      (∀ f ∈ difes.dropLast, f.extension = 1) ∧
      (difes = [] →
        dif.extension = 0 ∨ [0x8F, 0x80, 0x00, 0x55].get? 1 = some 0) ∧
      (∀ f, difes.getLast? = some f →
        f.extension = 0 ∨
          [0x8F, 0x80, 0x00, 0x55].get? (difes.length + 1) = some 0)) :=
  ⟨by decide, dibParse_block_invariant [0x8F, 0x80, 0x00, 0x55] (by decide)⟩

/-- A byte with bit 7 set yields a VIFE with extension flag 1. -/
lemma vife_ext_bit_one (b : ℕ) (h : b &&& 0x80 ≠ 0) :
    (ValueInformationFieldExtension.ofByte b).extension = 1 := by
  simp [ValueInformationFieldExtension.ofByte, h]

/-- Constructing a VIFE from a valid byte succeeds. -/
lemma mkVIFE_ok (b : ℕ) (h : b < 256) :
    mkVIFE b = .ok (ValueInformationFieldExtension.ofByte b) := by
  simp [mkVIFE, validate_byte, h, Bind.bind, Except.bind]

/-- Constructing a VIF from a valid byte succeeds. -/
lemma mkVIF_ok (b : ℕ) (h : b < 256) :
    mkVIF b = .ok (ValueInformationField.ofByte b) := by
  simp [mkVIF, validate_byte, h, Bind.bind, Except.bind]

/-- The VIFE loop on a chain of extension bytes followed by a zero byte
consumes exactly the chain and drops the zero byte (VIB analogue of
`difeLoop_chain_zero`). -/
lemma vifeLoop_chain_zero (chain : List ℕ) : ∀ (pos : ℕ) (rest : List ℕ),
    (∀ c ∈ chain, c < 256 ∧ c &&& 0x80 ≠ 0) → chain.length + pos ≤ 10 →
    vifeLoop (chain ++ 0 :: rest) pos =
      .ok (chain.map ValueInformationFieldExtension.ofByte) := by
  induction chain with
  | nil =>
    intro pos rest _ _
    simp [vifeLoop]
  | cons c cs ih =>
    intro pos rest h hlen
    have hc := h c (List.mem_cons_self c cs)
    have hcs : ∀ x ∈ cs, x < 256 ∧ x &&& 0x80 ≠ 0 := fun x hx =>
      h x (List.mem_cons_of_mem c hx)
    have hc0 : c ≠ 0 := by
      intro h0
      subst h0
      simp at hc
    have hpos : ¬(pos + 1 = MAX_EXT_FRAMES + 1) := by
      simp only [MAX_EXT_FRAMES]
      simp only [List.length_cons] at hlen
      omega
    have hrec := ih (pos + 1) rest hcs
      (by simp only [List.length_cons] at hlen; omega)
    simp [vifeLoop, hc0, mkVIFE_ok c hc.1, vife_ext_bit_one c hc.2, hpos, hrec,
      Bind.bind, Except.bind]

/-- C10. For every byte sequence whose first byte has the extension bit
set and that continues with a chain of at most nine extension bytes with
bit 7 set followed by a `0x00` byte, DIB and VIB parsing succeed and the
`0x00` byte is not included in the returned block: the block consists of
the primary field (whose extension bit is 1) followed by exactly the
chain's extension fields; with an empty chain the block is the primary
field alone.  The zero byte ends parsing without being appended. -/
theorem dib_vib_zero_byte_ends_chain (b : ℕ) (chain rest : List ℕ)
    (hb : b < 256) (hext : b &&& 0x80 ≠ 0)
    (hchain : ∀ c ∈ chain, c < 256 ∧ c &&& 0x80 ≠ 0)
    (hlen : chain.length ≤ 9) :
    dibParse (b :: (chain ++ 0 :: rest)) =
      .ok (DataInformationField.ofByte b,
        chain.map DataInformationFieldExtension.ofByte) ∧
    (DataInformationField.ofByte b).extension = 1 ∧
    vibParse (b :: (chain ++ 0 :: rest)) =
      .ok (ValueInformationField.ofByte b,
        chain.map ValueInformationFieldExtension.ofByte) ∧
    (ValueInformationField.ofByte b).extension = 1 := by
  have hdext : (DataInformationField.ofByte b).extension = 1 := by
    simp [DataInformationField.ofByte, hext]
  have hvext : (ValueInformationField.ofByte b).extension = 1 := by
    simp [ValueInformationField.ofByte, hext]
  refine ⟨?_, hdext, ?_, hvext⟩
  · have hloop := difeLoop_chain_zero chain 1 rest hchain (by omega)
    simp [dibParse, mkDIF_ok b hb, hdext, hloop, Bind.bind, Except.bind]
  · have hloop := vifeLoop_chain_zero chain 1 rest hchain (by omega)
    simp [vibParse, mkVIF_ok b hb, hvext, hloop, Bind.bind, Except.bind]

/-- Witness for C10: on `80 00` both parsers return the primary field
alone (extension bit 1) and drop the zero byte. -/
theorem dib_vib_zero_byte_ends_chain_witness :
    dibParse [0x80, 0] = .ok (DataInformationField.ofByte 0x80, []) ∧
    (DataInformationField.ofByte 0x80).extension = 1 ∧
    vibParse [0x80, 0] = .ok (ValueInformationField.ofByte 0x80, []) ∧
    (ValueInformationField.ofByte 0x80).extension = 1 := by
  have h := dib_vib_zero_byte_ends_chain 0x80 [] [] (by decide) (by decide)
    (by decide) (by decide)
  simpa using h

end Aiombus
